import Mathlib

/-!
Verification of the blocks-cpp block-device conversion tool.

Each definition below is a shallow embedding of a function from the C++
source (file and function named in its doc comment).  Machine integers are
modelled as `Nat` with explicit `% 2^32` / `% 2^64` where the C code can
wrap; disks are byte maps `Nat → Nat`; fallible code returns `Option` or
`Except`.  External processes (lvm, cryptsetup, dmsetup, ...) are assumed
to succeed; their invocations are recorded as events where a claim needs
them.
-/

namespace Blocks

/-- Two to the sixty-fourth, the modulus of `uint64_t` arithmetic. -/
def U64 : Nat := 18446744073709551616

/-- Two to the thirty-second, the modulus of `uint32_t` arithmetic. -/
def U32 : Nat := 4294967296

/-- `uint64_t` subtraction `a - b` (wraps modulo 2^64), for `a b < 2^64`. -/
def sub64 (a b : Nat) : Nat := (a + (U64 - b % U64)) % U64

/-- On inputs where the C subtraction does not underflow, `sub64` is plain
subtraction. -/
theorem sub64_eq_sub (a b : Nat) (hb : b ≤ a) (ha : a < U64) :
    sub64 a b = a - b := by
  unfold sub64 U64 at *
  omega

/-- Read a big-endian 32-bit value from four consecutive bytes of a disk,
as `memcpy` + `be32toh` does. -/
def rdBE32 (d : Nat → Nat) (off : Nat) : Nat :=
  d off * 16777216 + d (off + 1) * 65536 + d (off + 2) * 256 + d (off + 3)

/-- Read a big-endian 16-bit value from two consecutive bytes of a disk. -/
def rdBE16 (d : Nat → Nat) (off : Nat) : Nat :=
  d off * 256 + d (off + 1)

/-- Byte `i` (0 = most significant) of the big-endian encoding of a 32-bit
value, as `htobe32` + `memcpy` lays it out. -/
def be32byte (v i : Nat) : Nat :=
  v / 2 ^ (8 * (3 - i)) % 256

theorem be32byte_lt (v i : Nat) : be32byte v i < 256 := by
  unfold be32byte
  exact Nat.mod_lt _ (by norm_num)

/-- Decoding the four big-endian bytes of a value below 2^32 gives the
value back. -/
theorem rdBE32_be32byte (v : Nat) (hv : v < U32) (d : Nat → Nat) (off : Nat)
    (h0 : d off = be32byte v 0) (h1 : d (off + 1) = be32byte v 1)
    (h2 : d (off + 2) = be32byte v 2) (h3 : d (off + 3) = be32byte v 3) :
    rdBE32 d off = v := by
  unfold rdBE32
  rw [h0, h1, h2, h3]
  unfold be32byte U32 at *
  simp only [Nat.sub_zero, Nat.sub_self]
  norm_num
  omega

/-! ## BlockDevice (src/block_device.cpp) -/

/-- A block device as the probing layer sees it: a size in bytes and the
byte stored at each offset. -/
structure BlockDev where
  size : Nat
  byte : Nat → Nat

/-- `BCACHE_MAGIC` from src/blocks_types.h. -/
def bcacheMagic : List Nat :=
  [0xc6, 0x85, 0x73, 0xf6, 0x4e, 0x1a, 0x45, 0xca,
   0x82, 0x65, 0xf5, 0x7f, 0x48, 0xba, 0x6d, 0x81]

/-- Number of bytes `pread(fd, buf, count, off)` returns on a device of
`size` bytes (it reads up to end of device). -/
def preadLen (size off count : Nat) : Nat :=
  min count (size - off)

/-- `BlockDevice::has_bcache_superblock` (src/block_device.cpp:126-148):
refuse devices of at most 8192 bytes, read 16 bytes at offset 4096+24,
fail on a short read, and compare with `BCACHE_MAGIC`. -/
def hasBcacheSuperblock (dev : BlockDev) : Bool :=
  if dev.size ≤ 8192 then
    false
  else if preadLen dev.size 4120 16 ≠ 16 then
    false
  else
    (List.range 16).all fun i => dev.byte (4120 + i) == bcacheMagic.getD i 0

/-! ## LUKS low-level superblock reading (src/container.cpp:203-270) -/

/-- The 6-byte magic check of `LUKS::read_superblock_ll`:
`LUKS\xBA\xBE` = 76 85 75 83 186 190. -/
def luksMagicOk (d : Nat → Nat) : Bool :=
  d 0 == 76 && d 1 == 85 && d 2 == 75 && d 3 == 83 && d 4 == 186 && d 5 == 190

/-- `LUKS::read_superblock_ll` (src/container.cpp:203-270).  `d` is the
byte map of the cyphertext device, `offset` the payload offset in bytes
obtained by the earlier high-level read.  Returns the computed `sb_end`,
or `none` where the C++ throws.  The per-slot `key_offset * 512` and
`key_stripes * key_bytes` products are 32-bit and wrap modulo 2^32, as in
the source. -/
def readSuperblockLL (d : Nat → Nat) (offset : Nat) : Option Nat :=
  if ¬ luksMagicOk d then none
  else if rdBE16 d 6 ≠ 1 then none
  else if ¬ ((List.range 8).all fun k => rdBE32 d (208 + 48 * k + 44) == 4000) then none
  else
    let kb := rdBE32 d 108
    let sbEnd := (List.range 8).foldl
      (fun acc k => max acc (rdBE32 d (208 + 48 * k + 40) * 512 % U32 + 4000 * kb % U32)) 592
    let ll := rdBE32 d 104 * 512 % U32
    if ll ≠ offset then none
    else if ll < sbEnd then none
    else some sbEnd

/-- A concrete LUKS1 header image: valid magic and version, payload offset
1024 bytes (2 sectors), `key_bytes = 0`, every key slot with
`key_offset = 0` and `key_stripes = 4000`. -/
def luksDisk592 : Nat → Nat := fun p =>
  if p = 0 then 76 else if p = 1 then 85 else if p = 2 then 75
  else if p = 3 then 83 else if p = 4 then 186 else if p = 5 then 190
  else if p = 7 then 1
  else if p = 107 then 2
  else if 208 ≤ p ∧ p < 592 ∧ (p - 208) % 48 = 46 then 15
  else if 208 ≤ p ∧ p < 592 ∧ (p - 208) % 48 = 47 then 160
  else 0

/-- Counterexample for C6: `read_superblock_ll` succeeds on `luksDisk592`
with `sb_end = 592`, and 592 is not 512-aligned, refuting the claim that
the resulting `sb_end` is always 512-aligned. -/
theorem readSuperblockLL_misaligned :
    readSuperblockLL luksDisk592 1024 = some 592 ∧ 592 % 512 ≠ 0 :=
  ⟨by decide, by decide⟩

/-- C6 (amended): when `read_superblock_ll` succeeds (and the per-slot
32-bit products do not overflow), `sb_end` is the maximum of 592 and
`key_offset·512 + 4000·key_bytes` over the 8 key-slot descriptors, every
slot's `key_stripes` equals 4000, `sb_end ≤ payload_start`, and
`payload_start` is 512-aligned (but `sb_end` need not be). -/
theorem readSuperblockLL_spec (d : Nat → Nat) (offset e : Nat)
    (hko : ∀ k, k < 8 → rdBE32 d (208 + 48 * k + 40) * 512 < U32)
    (hkb : 4000 * rdBE32 d 108 < U32)
    (h : readSuperblockLL d offset = some e) :
    e = (List.range 8).foldl
        (fun acc k => max acc (rdBE32 d (208 + 48 * k + 40) * 512 + 4000 * rdBE32 d 108)) 592 ∧
      (∀ k, k < 8 → rdBE32 d (208 + 48 * k + 44) = 4000) ∧
      e ≤ offset ∧ offset % 512 = 0 := by
  unfold readSuperblockLL at h
  by_cases h1 : luksMagicOk d
  case neg => simp [h1] at h
  by_cases h2 : rdBE16 d 6 = 1
  case neg => simp [h1, h2] at h
  by_cases h3 : (List.range 8).all fun k => rdBE32 d (208 + 48 * k + 44) == 4000
  case neg => simp only [h1, h2, h3] at h; simp at h
  simp only [h1, not_true_eq_false, if_false, h2, ne_eq, not_true_eq_false, if_false,
    h3, if_false] at h
  have hfold :
      (List.range 8).foldl
        (fun acc k => max acc (rdBE32 d (208 + 48 * k + 40) * 512 % U32 +
          4000 * rdBE32 d 108 % U32)) 592 =
      (List.range 8).foldl
        (fun acc k => max acc (rdBE32 d (208 + 48 * k + 40) * 512 +
          4000 * rdBE32 d 108)) 592 := by
    have hr : List.range 8 = [0, 1, 2, 3, 4, 5, 6, 7] := rfl
    rw [hr]
    simp only [List.foldl]
    rw [Nat.mod_eq_of_lt hkb,
      Nat.mod_eq_of_lt (hko 0 (by norm_num)), Nat.mod_eq_of_lt (hko 1 (by norm_num)),
      Nat.mod_eq_of_lt (hko 2 (by norm_num)), Nat.mod_eq_of_lt (hko 3 (by norm_num)),
      Nat.mod_eq_of_lt (hko 4 (by norm_num)), Nat.mod_eq_of_lt (hko 5 (by norm_num)),
      Nat.mod_eq_of_lt (hko 6 (by norm_num)), Nat.mod_eq_of_lt (hko 7 (by norm_num))]
  split at h
  next hll => exact absurd h (by simp)
  next hll =>
    rw [not_ne_iff] at hll
    split at h
    next hlt => exact absurd h (by simp)
    next hlt =>
      have he := Option.some_inj.mp h
      refine ⟨by rw [← he, hfold], ?_, ?_, ?_⟩
      · intro k hk
        have hb := List.all_eq_true.mp h3 k (List.mem_range.mpr hk)
        simpa using hb
      · rw [← he, ← hll]
        exact Nat.le_of_not_lt hlt
      · rw [← hll]
        have h512 : (512 : Nat) ∣ U32 := by decide
        have hdvd : (512 : Nat) ∣ rdBE32 d 104 * 512 % U32 :=
          (Nat.dvd_mod_iff h512).mpr (dvd_mul_left 512 (rdBE32 d 104))
        omega

/-- Witness for the amended C6 theorem at the concrete header image
`luksDisk592`. -/
theorem readSuperblockLL_spec_witness :
    ((∀ k, k < 8 → rdBE32 luksDisk592 (208 + 48 * k + 40) * 512 < U32) ∧
        4000 * rdBE32 luksDisk592 108 < U32 ∧
        readSuperblockLL luksDisk592 1024 = some 592) ∧
      (592 = (List.range 8).foldl
          (fun acc k => max acc (rdBE32 luksDisk592 (208 + 48 * k + 40) * 512 +
            4000 * rdBE32 luksDisk592 108)) 592 ∧
        (∀ k, k < 8 → rdBE32 luksDisk592 (208 + 48 * k + 44) = 4000) ∧
        592 ≤ 1024 ∧ 1024 % 512 = 0) :=
  ⟨⟨by decide, by decide, by decide⟩,
    readSuperblockLL_spec luksDisk592 1024 592 (by decide) (by decide) (by decide)⟩

/-! ## LUKS superblock shifting (src/container.cpp:272-314) -/

/-- The in-memory edited superblock buffer of `LUKS::shift_sb`: the bytes
`[0, sb_end)` of the device with the four bytes at offset 104 replaced by
the big-endian encoding of `new_offset_sectors`.  The C++ computes
`uint32_t offset_sectors = offset / 512` (truncating to 32 bits) and
`uint32_t new_offset_sectors = offset_sectors - shift_by / 512` (the
subtraction promoted to `uint64_t`, then truncated). -/
def sbEdited (d : Nat → Nat) (offset shiftBy : Nat) : Nat → Nat :=
  fun q =>
    if 104 ≤ q ∧ q < 108 then
      be32byte (sub64 (offset / 512 % U32) (shiftBy / 512) % U32) (q - 104)
    else d q

/-- `LUKS::shift_sb` (src/container.cpp:272-314): refuse a zero or
unaligned shift, an unaligned offset, or `sb_end + shift_by > offset`;
otherwise write, in one `pwrite` at device offset 0, `shift_by` zero bytes
followed by the edited superblock. -/
def shiftSb (d : Nat → Nat) (sbEnd offset shiftBy : Nat) : Option (Nat → Nat) :=
  if shiftBy = 0 ∨ shiftBy % 512 ≠ 0 ∨ offset % 512 ≠ 0 then none
  else if sbEnd + shiftBy > offset then none
  else some fun p =>
    if p < shiftBy then 0
    else if p < shiftBy + sbEnd then sbEdited d offset shiftBy (p - shiftBy)
    else d p

/-- C5: with `shift_by = 8192`, under the precondition
`sb_end + shift_by ≤ payload_start` (failing with no write otherwise),
`shift_sb` writes 8192 zero bytes at offset 0 followed by the original
superblock bytes `[0, sb_end)` at offset 8192, with the 4-byte big-endian
field at superblock offset 104 replaced by `(payload_start − 8192)/512`,
so the new payload start equals the old payload start minus 8192. -/
theorem shiftSb_spec (d : Nat → Nat) (sbEnd offset : Nat)
    (hoff : offset % 512 = 0) (hbound : offset < U32 * 512) (hsb : 592 ≤ sbEnd) :
    (sbEnd + 8192 ≤ offset →
      ∃ d', shiftSb d sbEnd offset 8192 = some d' ∧
        (∀ p, p < 8192 → d' p = 0) ∧
        (∀ q, q < sbEnd → q < 104 ∨ 108 ≤ q → d' (8192 + q) = d q) ∧
        rdBE32 d' (8192 + 104) = (offset - 8192) / 512 ∧
        (offset - 8192) / 512 * 512 = offset - 8192 ∧
        (∀ p, 8192 + sbEnd ≤ p → d' p = d p)) ∧
    (offset < sbEnd + 8192 → shiftSb d sbEnd offset 8192 = none) := by
  have hg1 : ¬((8192 : Nat) = 0 ∨ (8192 : Nat) % 512 ≠ 0 ∨ offset % 512 ≠ 0) := by
    simp [hoff]
  constructor
  · intro hle
    have hg2 : ¬(sbEnd + 8192 > offset) := by omega
    refine ⟨_, by rw [shiftSb, if_neg hg1, if_neg hg2], ?_, ?_, ?_, ?_, ?_⟩
    · intro p hp
      simp [hp]
    · intro q hq hq2
      show (if 8192 + q < 8192 then (0 : Nat)
        else if 8192 + q < 8192 + sbEnd then sbEdited d offset 8192 (8192 + q - 8192)
        else d (8192 + q)) = d q
      rw [if_neg (by omega), if_pos (by omega)]
      show (if 104 ≤ 8192 + q - 8192 ∧ 8192 + q - 8192 < 108
        then be32byte (sub64 (offset / 512 % U32) (8192 / 512) % U32) (8192 + q - 8192 - 104)
        else d (8192 + q - 8192)) = d q
      rw [if_neg (by omega)]
      have hqq : 8192 + q - 8192 = q := by omega
      rw [hqq]
    · have hb' : offset < 4294967296 * 512 := hbound
      have hv : sub64 (offset / 512 % U32) (8192 / 512) % U32 = (offset - 8192) / 512 := by
        have hq : offset / 512 < U32 := by
          show offset / 512 < 4294967296
          omega
        rw [Nat.mod_eq_of_lt hq]
        have h16 : (8192 : Nat) / 512 = 16 := by norm_num
        rw [h16, sub64_eq_sub (offset / 512) 16 (by omega)
          (by show offset / 512 < 18446744073709551616; omega)]
        rw [Nat.mod_eq_of_lt (by show offset / 512 - 16 < 4294967296; omega)]
        omega
      have hrd : ∀ i, i < 4 →
          (fun p => if p < 8192 then 0
            else if p < 8192 + sbEnd then sbEdited d offset 8192 (p - 8192)
            else d p) (8192 + 104 + i) =
          be32byte ((offset - 8192) / 512) i := by
        intro i hi
        show (if 8192 + 104 + i < 8192 then (0 : Nat)
          else if 8192 + 104 + i < 8192 + sbEnd then
            sbEdited d offset 8192 (8192 + 104 + i - 8192)
          else d (8192 + 104 + i)) = be32byte ((offset - 8192) / 512) i
        rw [if_neg (by omega), if_pos (by omega)]
        show (if 104 ≤ 8192 + 104 + i - 8192 ∧ 8192 + 104 + i - 8192 < 108
          then be32byte (sub64 (offset / 512 % U32) (8192 / 512) % U32)
            (8192 + 104 + i - 8192 - 104)
          else d (8192 + 104 + i - 8192)) = be32byte ((offset - 8192) / 512) i
        rw [if_pos (by omega), hv]
        have hii : 8192 + 104 + i - 8192 - 104 = i := by omega
        rw [hii]
      rw [rdBE32_be32byte ((offset - 8192) / 512)
        (by show (offset - 8192) / 512 < 4294967296; omega) _ _
        (by simpa using hrd 0 (by norm_num)) (by simpa using hrd 1 (by norm_num))
        (by simpa using hrd 2 (by norm_num)) (by simpa using hrd 3 (by norm_num))]
    · omega
    · intro p hp
      have h1 : ¬(p < 8192) := by omega
      have h2 : ¬(p < 8192 + sbEnd) := by omega
      simp [h1, h2]
  · intro hlt
    rw [shiftSb, if_neg hg1, if_pos (by omega)]

/-- A sample byte map for concrete witnesses. -/
def sampleDisk : Nat → Nat := fun p => p % 251

/-- Witness for C5 at a concrete device: payload offset 2097152 bytes,
`sb_end = 592`. -/
theorem shiftSb_spec_witness :
    (2097152 % 512 = 0 ∧ 2097152 < U32 * 512 ∧ 592 ≤ 592) ∧
      ((592 + 8192 ≤ 2097152 →
        ∃ d', shiftSb sampleDisk 592 2097152 8192 = some d' ∧
          (∀ p, p < 8192 → d' p = 0) ∧
          (∀ q, q < 592 → q < 104 ∨ 108 ≤ q → d' (8192 + q) = sampleDisk q) ∧
          rdBE32 d' (8192 + 104) = (2097152 - 8192) / 512 ∧
          (2097152 - 8192) / 512 * 512 = 2097152 - 8192 ∧
          (∀ p, 8192 + 592 ≤ p → d' p = sampleDisk p)) ∧
      (2097152 < 592 + 8192 → shiftSb sampleDisk 592 2097152 8192 = none)) :=
  ⟨⟨by decide, by decide, by decide⟩,
    shiftSb_spec sampleDisk 592 2097152 (by decide) (by decide) (by decide)⟩
/-! ## cmd_to_bcache dispatch (src/main.cpp:182-219, src/bcache_operations.cpp:262-316) -/

/-- A probed device, with the cached flags the to-bcache driver consults. -/
structure ProbedDevice where
  dev : BlockDev
  isPartition : Bool
  isLv : Bool
  superblockType : String

/-- The four conversion variants the to-bcache command can dispatch to. -/
inductive BcacheVariant
  | maintboot
  | part
  | lv
  | luks
deriving DecidableEq, Repr

/-- Outcome of the to-bcache driver before/at variant selection. -/
inductive ToBcacheOutcome
  | alreadyBcache
  | unsupported
  | dispatch (v : BcacheVariant)
deriving DecidableEq, Repr

/-- The to-bcache driver (src/main.cpp:189-218): refuse a device that
already has a bcache superblock, then select a variant from the
maintboot flag, partition / LV / LUKS probes. -/
def cmdToBcache (d : ProbedDevice) (maintboot : Bool) : ToBcacheOutcome :=
  if hasBcacheSuperblock d.dev then
    .alreadyBcache
  else if maintboot then
    .dispatch .maintboot
  else if d.isPartition then
    .dispatch .part
  else if d.isLv then
    .dispatch .lv
  else if d.superblockType = "crypto_LUKS" then
    .dispatch .luks
  else
    .unsupported

/-- Exit code determined by the driver itself; a dispatched variant's exit
code is the variant's own. -/
def outcomeExit : ToBcacheOutcome → Option Int
  | .alreadyBcache => some 1
  | .unsupported => some 1
  | .dispatch _ => none

/-- Whether the outcome hands the device to a conversion variant (the only
paths that mutate the device). -/
def outcomeDispatches : ToBcacheOutcome → Bool
  | .dispatch _ => true
  | _ => false

/-! ## Theorems for C8 and C10 -/

/-- C8: `has_bcache_superblock()` returns true if and only if the device's
size is strictly greater than 8192 bytes and the 16 bytes read at offset
4120 equal the fixed magic c6 85 73 f6 4e 1a 45 ca 82 65 f5 7f 48 ba 6d 81. -/
theorem hasBcacheSuperblock_iff (dev : BlockDev) :
    hasBcacheSuperblock dev = true ↔
      8192 < dev.size ∧ ∀ i, i < 16 → dev.byte (4120 + i) = bcacheMagic.getD i 0 := by
  unfold hasBcacheSuperblock
  by_cases hs : dev.size ≤ 8192
  · simp only [hs, if_true]
    constructor
    · intro h
      exact absurd h (by simp)
    · intro ⟨h, _⟩
      omega
  · have hlen : preadLen dev.size 4120 16 = 16 := by
      unfold preadLen
      omega
    simp only [hs, if_false, hlen, ne_eq, not_true_eq_false, reduceIte,
      List.all_eq_true, List.mem_range, beq_iff_eq]
    constructor
    · intro h
      exact ⟨by omega, h⟩
    · intro ⟨_, h⟩
      exact h

/-- C10: for every device that already carries a bcache superblock, the
to-bcache command returns exit code 1 before selecting any conversion
variant and performs no write to the device. -/
theorem cmdToBcache_refuses_existing (d : ProbedDevice) (maintboot : Bool)
    (h : hasBcacheSuperblock d.dev = true) :
    cmdToBcache d maintboot = .alreadyBcache ∧
      outcomeExit (cmdToBcache d maintboot) = some 1 ∧
      outcomeDispatches (cmdToBcache d maintboot) = false := by
  unfold cmdToBcache
  rw [h]
  exact ⟨rfl, rfl, rfl⟩

/-- A 16 KiB device carrying the bcache magic at offset 4120. -/
def bcacheDev16k : ProbedDevice :=
  { dev :=
      { size := 16384
        byte := fun p => if 4120 ≤ p ∧ p < 4136 then bcacheMagic.getD (p - 4120) 0 else 0 }
    isPartition := true
    isLv := false
    superblockType := "" }

/-- Witness for C10: the concrete device `bcacheDev16k` carries the magic,
and the driver refuses it. -/
theorem cmdToBcache_refuses_existing_witness :
    hasBcacheSuperblock bcacheDev16k.dev = true ∧
      cmdToBcache bcacheDev16k false = .alreadyBcache ∧
      outcomeExit (cmdToBcache bcacheDev16k false) = some 1 ∧
      outcomeDispatches (cmdToBcache bcacheDev16k false) = false :=
  ⟨by decide, cmdToBcache_refuses_existing bcacheDev16k false (by decide)⟩

deriving instance DecidableEq for Except

/-! ## SyntheticDevice::copy_to_physical (src/synthetic_device.cpp:18-85) -/

/-- `SyntheticDevice::copy_to_physical` (src/synthetic_device.cpp:18-85).
`shiftBy` is the value of the `uint64_t shift_by` parameter (callers
passing a negative number hand over its two's complement).  Because the
parameter is unsigned, the source's `if (shift_by < 0) shift_by += size;`
branch can never run, so no wrapping is modelled.  `pwrite` receives the
offset as a signed `off_t` and fails with EINVAL when the value is at
least 2^63.  Returns the list of (offset, length) writes performed on the
physical device, or the first failure. -/
def copyToPhysical (hdr rz endSize shiftBy reservedArea : Nat)
    (otherDevice : Bool) : Except String (List (Nat × Nat)) :=
  let size := hdr + rz + endSize
  let wrendOffset := (hdr + rz + shiftBy) % U64
  if reservedArea ≠ 0 ∧ (shiftBy < reservedArea ∨ wrendOffset < reservedArea) then
    Except.error "assertion failure: write below reserved area"
  else if ¬otherDevice ∧ size < (shiftBy + hdr) % U64 then
    Except.error "assertion failure: header write out of range"
  else if ¬otherDevice ∧ endSize ≠ 0 ∧ size < (wrendOffset + endSize) % U64 then
    Except.error "assertion failure: end write out of range"
  else if 9223372036854775808 ≤ shiftBy then
    Except.error "pwrite failed: offset negative as off_t"
  else if endSize = 0 then
    Except.ok [(shiftBy, hdr)]
  else if 9223372036854775808 ≤ wrendOffset then
    Except.error "pwrite failed: offset negative as off_t"
  else
    Except.ok [(shiftBy, hdr), (wrendOffset, endSize)]

/-- The `uint64_t` value received for the C++ call
`copy_to_physical(fd, -pe_size)` in `lv_to_bcache`
(src/bcache_operations.cpp:84): the two's complement of `-pe_size`. -/
def lvToBcacheShiftArg (peSize : Nat) : Nat := (U64 - peSize % U64) % U64

/-- C7 evaluated at the failing input (the `lv_to_bcache` call with
`pe_size` = 4 MiB on a 100 MiB LV, head = pe, middle = size − pe, no
tail): because `shift_by` is declared `uint64_t`, the negative-shift
wrap is dead code; the effective offset is 2^64 − pe, not
(head + middle + tail) − pe, and the `pwrite` fails instead of writing
the head at offset size − pe. -/
theorem copyToPhysical_negative_shift_bug :
    copyToPhysical 4194304 (104857600 - 4194304) 0 (lvToBcacheShiftArg 4194304) 0 false =
      Except.error "pwrite failed: offset negative as off_t" ∧
    lvToBcacheShiftArg 4194304 = U64 - 4194304 ∧
    lvToBcacheShiftArg 4194304 ≠ 104857600 - 4194304 ∧
    copyToPhysical 4194304 (104857600 - 4194304) 0 (lvToBcacheShiftArg 4194304) 0 false ≠
      Except.ok [(104857600 - 4194304, 4194304)] :=
  ⟨by decide, by decide, by decide, by decide⟩

/-! ## BlockStack (src/block_stack.cpp) -/

/-- A wrapper layer of a block stack: a `SimpleContainer` that is either a
`LUKS` or a `BCacheBacking` instance, carrying its offset. -/
inductive Wrapper
  | luks (offset : Nat)
  | bcache (offset : Nat)
deriving DecidableEq, Repr

/-- The `SimpleContainer::offset` field. -/
def Wrapper.offset : Wrapper → Nat
  | .luks o => o
  | .bcache o => o

/-- The filesystem fields `stack_reserve_end_area` consults. -/
structure FsInfo where
  fssize : Nat
  blockSize : Nat
  canShrink : Bool
deriving DecidableEq, Repr

/-- A `BlockStack`: wrappers from outermost to innermost, then the
filesystem.  Layer `i` is `wrappers[i]`; the filesystem has layer index
`wrappers.length`. -/
structure BStack where
  wrappers : List Wrapper
  fs : FsInfo
deriving DecidableEq, Repr

/-- `align` from src/blocks_types.h:70-72 (round down to a multiple). -/
def align (size a : Nat) : Nat := size / a * a

/-- `BlockStack::overhead` (src/block_stack.cpp:16-24): sum of the
wrappers' offsets. -/
def overhead (st : BStack) : Nat :=
  st.wrappers.foldl (fun acc w => acc + w.offset) 0

/-- Sum of the offsets of the wrappers with index below `i` (the layers
outside layer `i`). -/
def offsetsBefore (st : BStack) (i : Nat) : Nat :=
  (st.wrappers.take i).foldl (fun acc w => acc + w.offset) 0

/-- The position-threading loop of `BlockStack::iter_pos`
(src/block_stack.cpp:45-59): record `(pos, layer)`, then subtract the
layer's offset (`uint64_t` arithmetic) before descending. -/
def iterPosAux (pos i : Nat) : List Wrapper → List (Nat × Nat) × Nat
  | [] => ([], pos)
  | w :: ws =>
    let r := iterPosAux (sub64 pos w.offset) (i + 1) ws
    ((pos, i) :: r.1, r.2)

/-- `BlockStack::iter_pos`: pairs of (inner position, layer index) for the
wrappers, then for the filesystem. -/
def iterPos (st : BStack) (pos : Nat) : List (Nat × Nat) :=
  let r := iterPosAux pos 0 st.wrappers
  r.1 ++ [(r.2, st.wrappers.length)]

/-- Which layers the loop at src/block_stack.cpp:125-131 actually calls
`reserve_end_area_nonrec` on: the filesystem and `LUKS` wrappers (the
`dynamic_pointer_cast` chain has no `BCacheBacking` case). -/
def reserveCalled (st : BStack) (i : Nat) : Bool :=
  if i = st.wrappers.length then true
  else
    match st.wrappers.get? i with
    | some (.luks _) => true
    | _ => false

/-- `BlockStack::stack_reserve_end_area` (src/block_stack.cpp:96-132):
bail with `CantShrink` when the filesystem does not fit and cannot
shrink; otherwise walk `iter_pos` output in reverse and call
`reserve_end_area_nonrec` on the filesystem and LUKS layers.  Returns the
trace of `(inner position, layer)` calls. -/
def stackReserveEndArea (st : BStack) (pos : Nat) : Option (List (Nat × Nat)) :=
  let innerPos := align (sub64 pos (overhead st)) st.fs.blockSize
  if st.fs.fssize > innerPos ∧ st.fs.canShrink = false then none
  else some (((iterPos st pos).reverse).filter fun pi => reserveCalled st pi.2)

/-- The loop of `BlockStack::stack_grow` (src/block_stack.cpp:77-94):
every wrapper's `grow_nonrec(current_size)` returns its argument, then
`current_size -= offset`. -/
def stackGrowAux (cur i : Nat) : List Wrapper → List (Nat × Nat) × Nat
  | [] => ([], cur)
  | w :: ws =>
    let r := stackGrowAux (sub64 cur w.offset) (i + 1) ws
    ((cur, i) :: r.1, r.2)

/-- `BlockStack::stack_grow`: trace of `(size, layer)` calls to
`grow_nonrec`, wrappers outermost-first, filesystem last. -/
def stackGrow (st : BStack) (newsize : Nat) : List (Nat × Nat) :=
  let r := stackGrowAux newsize 0 st.wrappers
  r.1 ++ [(r.2, st.wrappers.length)]

/-- Shifting the accumulator out of the offset-summing fold. -/
theorem foldl_offset_shift (ws : List Wrapper) :
    ∀ a : Nat, ws.foldl (fun acc w => acc + w.offset) a =
      a + ws.foldl (fun acc w => acc + w.offset) 0 := by
  induction ws with
  | nil => intro a; simp
  | cons w ws ih =>
    intro a
    simp only [List.foldl_cons]
    rw [ih (a + w.offset), ih (0 + w.offset)]
    omega

/-- Closed form of the `iter_pos` loop: layer `i + j` is visited at
position `pos` minus the offsets of the loop's previous layers. -/
theorem iterPosAux_eq (ws : List Wrapper) :
    ∀ pos i : Nat, ws.foldl (fun acc w => acc + w.offset) 0 ≤ pos → pos < U64 →
    iterPosAux pos i ws =
      ((List.range ws.length).map fun j =>
        (pos - (ws.take j).foldl (fun acc w => acc + w.offset) 0, i + j),
       pos - ws.foldl (fun acc w => acc + w.offset) 0) := by
  induction ws with
  | nil => intro pos i _ _; simp [iterPosAux]
  | cons w ws ih =>
    intro pos i hle hlt
    have hsum : (w :: ws).foldl (fun acc w => acc + w.offset) 0 =
        w.offset + ws.foldl (fun acc w => acc + w.offset) 0 := by
      simp only [List.foldl_cons]
      rw [foldl_offset_shift]
      omega
    rw [hsum] at hle
    have hwo : w.offset ≤ pos := by omega
    have hstep : sub64 pos w.offset = pos - w.offset := sub64_eq_sub pos w.offset hwo hlt
    simp only [iterPosAux, hstep]
    rw [ih (pos - w.offset) (i + 1) (by omega) (by omega)]
    refine Prod.ext ?_ ?_
    · simp only [List.length_cons, List.range_succ_eq_map, List.map_cons, List.map_map]
      refine List.cons_eq_cons.mpr ⟨?_, ?_⟩
      · simp
      · refine List.map_congr_left ?_
        intro j hj
        simp only [Function.comp]
        have htake : ((w :: ws).take (j + 1)).foldl (fun acc w => acc + w.offset) 0 =
            w.offset + (ws.take j).foldl (fun acc w => acc + w.offset) 0 := by
          simp only [List.take_succ_cons, List.foldl_cons]
          rw [foldl_offset_shift]
          omega
        refine Prod.ext ?_ ?_
        · simp only [htake]
          omega
        · simp only []
          omega
    · simp only [hsum]
      omega

/-- `stack_grow`'s loop is the same recurrence as `iter_pos`. -/
theorem stackGrowAux_eq_iterPosAux (ws : List Wrapper) :
    ∀ cur i : Nat, stackGrowAux cur i ws = iterPosAux cur i ws := by
  induction ws with
  | nil => intro cur i; rfl
  | cons w ws ih =>
    intro cur i
    simp only [stackGrowAux, iterPosAux, ih]

/-- Closed form of `iter_pos`: each layer is visited at `pos` minus the
offsets of the layers above it. -/
theorem iterPos_eq (st : BStack) (pos : Nat)
    (hov : overhead st ≤ pos) (hlt : pos < U64) :
    iterPos st pos =
      (List.range (st.wrappers.length + 1)).map fun j => (pos - offsetsBefore st j, j) := by
  unfold iterPos
  rw [iterPosAux_eq st.wrappers pos 0 hov hlt]
  simp only [List.range_succ, List.map_append, List.map_cons, List.map_nil]
  refine congrArg₂ _ ?_ ?_
  · refine List.map_congr_left ?_
    intro j hj
    simp [offsetsBefore]
  · simp [offsetsBefore, overhead]

/-- Counterexample for C3: on a stack whose only wrapper is a
`BCacheBacking` container, `stack_reserve_end_area` calls
`reserve_end_area_nonrec` on the filesystem only; the wrapper layer
(index 0) receives no call, refuting "exactly once on each layer". -/
theorem stackReserve_skips_bcache :
    stackReserveEndArea (BStack.mk [.bcache 8192] ⟨1048576, 4096, true⟩) 2097152 =
      some [(2088960, 1)] ∧
    (((stackReserveEndArea (BStack.mk [.bcache 8192] ⟨1048576, 4096, true⟩) 2097152).getD
      []).all fun pi => pi.2 ≠ 0) = true ∧
    (BStack.mk [.bcache 8192] ⟨1048576, 4096, true⟩).wrappers.length = 1 :=
  ⟨by decide, by decide, by decide⟩

/-- C3 (amended): when the shrink is admissible, `stack_reserve_end_area`
calls `reserve_end_area_nonrec` exactly once on the filesystem and on
each LUKS wrapper — skipping BCacheBacking wrappers — in innermost-first
order, passing each layer `pos` minus the offsets of the layers above
it; and `stack_grow` calls `grow_nonrec` on every layer in
outermost-first order with the analogous sizes. -/
theorem stack_traces_spec (st : BStack) (pos newsize : Nat)
    (hov : overhead st ≤ pos) (hlt : pos < U64)
    (hgov : overhead st ≤ newsize) (hglt : newsize < U64)
    (hfit : st.fs.fssize ≤ align (pos - overhead st) st.fs.blockSize ∨
      st.fs.canShrink = true) :
    stackReserveEndArea st pos =
      some ((((List.range (st.wrappers.length + 1)).map fun j =>
        (pos - offsetsBefore st j, j)).reverse).filter fun pi => reserveCalled st pi.2) ∧
    stackGrow st newsize =
      (List.range (st.wrappers.length + 1)).map fun j => (newsize - offsetsBefore st j, j) := by
  constructor
  · unfold stackReserveEndArea
    have hsub : sub64 pos (overhead st) = pos - overhead st :=
      sub64_eq_sub pos (overhead st) hov hlt
    rw [hsub]
    have hcond : ¬(st.fs.fssize > align (pos - overhead st) st.fs.blockSize ∧
        st.fs.canShrink = false) := by
      rcases hfit with h | h
      · intro hc; omega
      · intro hc; rw [h] at hc; exact Bool.noConfusion hc.2
    rw [if_neg hcond, iterPos_eq st pos hov hlt]
  · unfold stackGrow
    rw [stackGrowAux_eq_iterPosAux]
    have h := iterPos_eq st newsize hgov hglt
    unfold iterPos at h
    exact h

/-- Witness for the amended C3 theorem on a concrete two-layer stack
(LUKS wrapper over an ext4 filesystem). -/
theorem stack_traces_spec_witness :
    (overhead (BStack.mk [.luks 2097152] ⟨52428800, 4096, true⟩) ≤ 104857600 ∧
      (104857600 : Nat) < U64 ∧
      overhead (BStack.mk [.luks 2097152] ⟨52428800, 4096, true⟩) ≤ 209715200 ∧
      (209715200 : Nat) < U64 ∧
      ((BStack.mk [.luks 2097152] ⟨52428800, 4096, true⟩).fs.fssize ≤
          align (104857600 - overhead (BStack.mk [.luks 2097152] ⟨52428800, 4096, true⟩))
            (BStack.mk [.luks 2097152] ⟨52428800, 4096, true⟩).fs.blockSize ∨
        (BStack.mk [.luks 2097152] ⟨52428800, 4096, true⟩).fs.canShrink = true)) ∧
    (stackReserveEndArea (BStack.mk [.luks 2097152] ⟨52428800, 4096, true⟩) 104857600 =
      some ((((List.range ((BStack.mk [.luks 2097152] ⟨52428800, 4096, true⟩).wrappers.length + 1)).map
        fun j => (104857600 - offsetsBefore (BStack.mk [.luks 2097152] ⟨52428800, 4096, true⟩) j, j)).reverse).filter
          fun pi => reserveCalled (BStack.mk [.luks 2097152] ⟨52428800, 4096, true⟩) pi.2) ∧
    stackGrow (BStack.mk [.luks 2097152] ⟨52428800, 4096, true⟩) 209715200 =
      (List.range ((BStack.mk [.luks 2097152] ⟨52428800, 4096, true⟩).wrappers.length + 1)).map
        fun j => (209715200 - offsetsBefore (BStack.mk [.luks 2097152] ⟨52428800, 4096, true⟩) j, j)) :=
  ⟨⟨by decide, by decide, by decide, by decide, by decide⟩,
    stack_traces_spec (BStack.mk [.luks 2097152] ⟨52428800, 4096, true⟩) 104857600 209715200
      (by decide) (by decide) (by decide) (by decide) (by decide)⟩

/-! ## cmd_to_lvm (src/lvm_operations.cpp:317-676) -/

/-- A device-mapper target, as written into a `dmsetup create` table. -/
inductive DmTarget
  | error
  | linear (dev : String) (off : Nat)
deriving DecidableEq, Repr

/-- One line of a device-mapper table: start sector, length in sectors,
target. -/
structure DmEntry where
  start : Nat
  len : Nat
  target : DmTarget
deriving DecidableEq, Repr

/-- The `rozeros` table built at src/lvm_operations.cpp:489:
`0 <sectors(size - pe)> error`. -/
def rozerosTable (size peSize : Nat) : List DmEntry :=
  [⟨0, sub64 size peSize / 512, .error⟩]

/-- The synthetic-device table built at src/lvm_operations.cpp:497-499:
the first `pe` bytes map linearly onto the real device at offset 0, the
remaining `size - pe` bytes onto the rozeros error target.  There is no
third line. -/
def synthTable (size peSize : Nat) (devpath rozerosName : String) : List DmEntry :=
  [⟨0, peSize / 512, .linear devpath 0⟩,
   ⟨peSize / 512, sub64 size peSize / 512, .linear ("/dev/mapper/" ++ rozerosName) 0⟩]

/-- The `--config` value built at src/lvm_operations.cpp:575: accept
exactly the synthetic path, reject everything else. -/
def lvmConfig (synthFullName : String) : String :=
  "devices\x7bfilter=[\"a|^" ++ synthFullName ++
    "$|\",\"r|.*|\"]\x7dactivation\x7bverify_udev_operations=1\x7d"

/-- The assertions and size computations of `cmd_to_lvm` that precede any
mutation of the device (src/lvm_operations.cpp:389-410):
`assert(device.size() % 512 == 0)`; `bytes_to_sector(pe_size)` asserts
`pe_size % 512 == 0`; `pe_count = size / pe - 1` and
`pe_newpos = pe_count * pe` in `uint64_t` arithmetic;
`assert(pe_size >= 4096)`.  There is no divisibility check of the device
size by the PE size. -/
def cmdToLvmChecks (size peSize : Nat) : Option (Nat × Nat) :=
  if size % 512 ≠ 0 then none
  else if peSize % 512 ≠ 0 then none
  else
    let peCount := sub64 (size / peSize) 1
    let peNewpos := peCount * peSize % U64
    if peSize < 4096 then none
    else some (peCount, peNewpos)

/-- Counterexample for C4: a device of 8 MiB + 512 bytes with the default
4 MiB PE size passes every pre-mutation check of `cmd_to_lvm`
(`pe_count = 1`, `pe_newpos = 4194304`) although the device size is not a
multiple of the PE size, refuting "requires that device.size() is a
multiple of pe". -/
theorem cmdToLvmChecks_not_pe_multiple :
    cmdToLvmChecks 8389120 4194304 = some (1, 4194304) ∧ 8389120 % 4194304 ≠ 0 :=
  ⟨by decide, by decide⟩

/-- C4 (amended): before any mutation `cmd_to_lvm` computes
`pe_count = device.size()/pe − 1` and `pe_newpos = pe_count · pe`, and
requires `pe ≥ 4096`, `pe % 512 = 0` and `device.size() % 512 = 0` — but
not that the device size is a multiple of pe. -/
theorem cmdToLvmChecks_spec (size peSize : Nat)
    (hpe : peSize ≠ 0) (hle : peSize ≤ size) (hsz : size < U64) :
    cmdToLvmChecks size peSize = some (size / peSize - 1, (size / peSize - 1) * peSize) ↔
      size % 512 = 0 ∧ peSize % 512 = 0 ∧ 4096 ≤ peSize := by
  have hdiv1 : 1 ≤ size / peSize := (Nat.one_le_div_iff (by omega)).mpr hle
  have hdivlt : size / peSize < U64 := lt_of_le_of_lt (Nat.div_le_self _ _) hsz
  have hcount : sub64 (size / peSize) 1 = size / peSize - 1 :=
    sub64_eq_sub _ 1 hdiv1 hdivlt
  have hnp : (size / peSize - 1) * peSize % U64 = (size / peSize - 1) * peSize := by
    refine Nat.mod_eq_of_lt (lt_of_le_of_lt ?_ hsz)
    calc (size / peSize - 1) * peSize ≤ size / peSize * peSize :=
          Nat.mul_le_mul_right _ (by omega)
      _ ≤ size := Nat.div_mul_le_self size peSize
  constructor
  · intro h
    unfold cmdToLvmChecks at h
    by_cases h1 : size % 512 = 0
    · by_cases h2 : peSize % 512 = 0
      · by_cases h3 : peSize < 4096
        · simp [h1, h2, h3] at h
        · exact ⟨h1, h2, by omega⟩
      · simp [h1, h2] at h
    · simp [h1] at h
  · intro ⟨h1, h2, h3⟩
    unfold cmdToLvmChecks
    simp only [h1, ne_eq, not_true_eq_false, if_false, h2, reduceIte]
    rw [if_neg (by omega), hcount, hnp]

/-- Witness for the amended C4 theorem: a 100 MiB device with 4 MiB PEs
(`pe_count = 24`, `pe_newpos = 100663296`). -/
theorem cmdToLvmChecks_spec_witness :
    ((4194304 : Nat) ≠ 0 ∧ (4194304 : Nat) ≤ 104857600 ∧ (104857600 : Nat) < U64) ∧
      (cmdToLvmChecks 104857600 4194304 =
          some (104857600 / 4194304 - 1, (104857600 / 4194304 - 1) * 4194304) ↔
        104857600 % 512 = 0 ∧ 4194304 % 512 = 0 ∧ 4096 ≤ 4194304) :=
  ⟨⟨by decide, by decide, by decide⟩,
    cmdToLvmChecks_spec 104857600 4194304 (by decide) (by decide) (by decide)⟩

/-- Counterexample for C2 at the concrete input size = 100 MiB,
pe = 4 MiB: the synthetic table has no tail line, maps its head linearly
onto the real device itself (so the LVM tools' writes to the head region
land on the real device, and the head is not backed by scratch storage),
and its middle spans `(size - pe)/512` sectors, not `(size - 2*pe)/512`. -/
theorem synthTable_head_is_real_device :
    synthTable 104857600 4194304 "/dev/loop0" "rozeros-u" =
      [⟨0, 8192, .linear "/dev/loop0" 0⟩,
       ⟨8192, 196608, .linear "/dev/mapper/rozeros-u" 0⟩] ∧
    (synthTable 104857600 4194304 "/dev/loop0" "rozeros-u").length = 2 ∧
    196608 ≠ (104857600 - 2 * 4194304) / 512 :=
  ⟨by decide, by decide, by decide⟩

/-- C2 (amended): `cmd_to_lvm` builds a synthetic device of total size
`device.size()`: a head of `pe` bytes mapped linearly onto the real
device at offset 0 (so the LVM tools' metadata writes to the head go
directly to the real device), and a middle of `device.size() - pe` bytes
backed by the rozeros error target; there is no tail region.  The
`devices.filter` configuration accepts exactly the synthetic path and
rejects every other device. -/
theorem synthTable_spec (size peSize : Nat) (devpath rozerosName synthFullName : String)
    (h512 : size % 512 = 0) (hp512 : peSize % 512 = 0)
    (hle : peSize ≤ size) (hsz : size < U64) :
    synthTable size peSize devpath rozerosName =
      [⟨0, peSize / 512, .linear devpath 0⟩,
       ⟨peSize / 512, (size - peSize) / 512, .linear ("/dev/mapper/" ++ rozerosName) 0⟩] ∧
    rozerosTable size peSize = [⟨0, (size - peSize) / 512, .error⟩] ∧
    peSize / 512 + (size - peSize) / 512 = size / 512 ∧
    lvmConfig synthFullName =
      "devices\x7bfilter=[\"a|^" ++ synthFullName ++
        "$|\",\"r|.*|\"]\x7dactivation\x7bverify_udev_operations=1\x7d" := by
  have hsub : sub64 size peSize = size - peSize := sub64_eq_sub size peSize hle hsz
  refine ⟨?_, ?_, ?_, rfl⟩
  · unfold synthTable
    rw [hsub]
  · unfold rozerosTable
    rw [hsub]
  · omega

/-- Witness for the amended C2 theorem at size = 100 MiB, pe = 4 MiB. -/
theorem synthTable_spec_witness :
    ((104857600 : Nat) % 512 = 0 ∧ (4194304 : Nat) % 512 = 0 ∧
      (4194304 : Nat) ≤ 104857600 ∧ (104857600 : Nat) < U64) ∧
    (synthTable 104857600 4194304 "/dev/sda" "rozeros-x" =
      [⟨0, 4194304 / 512, .linear "/dev/sda" 0⟩,
       ⟨4194304 / 512, (104857600 - 4194304) / 512, .linear ("/dev/mapper/" ++ "rozeros-x") 0⟩] ∧
    rozerosTable 104857600 4194304 = [⟨0, (104857600 - 4194304) / 512, .error⟩] ∧
    4194304 / 512 + (104857600 - 4194304) / 512 = 104857600 / 512 ∧
    lvmConfig "/dev/mapper/synthetic-x" =
      "devices\x7bfilter=[\"a|^" ++ "/dev/mapper/synthetic-x" ++
        "$|\",\"r|.*|\"]\x7dactivation\x7bverify_udev_operations=1\x7d") :=
  ⟨⟨by decide, by decide, by decide, by decide⟩,
    synthTable_spec 104857600 4194304 "/dev/sda" "rozeros-x" "/dev/mapper/synthetic-x"
      (by decide) (by decide) (by decide) (by decide)⟩

/-- The `ASCII_ALNUM_WHITELIST` of src/blocks_types.h:38. -/
def asciiWhitelist : List Char :=
  "abcdefghijklmnopqrstuvwxyzABCDEFGHIJKLMNOPQRSTUVWXYZ0123456789.".toList

/-- Whether every character of a string is in the whitelist. -/
def inWhitelist (s : String) : Bool :=
  s.toList.all fun c => asciiWhitelist.contains c

/-- The observable operations of the `cmd_to_lvm` pipeline, in program
order.  External commands are assumed to succeed; device reads/writes
carry (offset, length). -/
inductive LvmEvent
  | pvremove
  | e2fsck
  | reserveCall (pos idx : Nat)
  | devRead (off len : Nat)
  | devWrite (off len : Nat)
  | dmCreate (name : String) (table : List DmEntry)
  | pvcreate (config : String)
  | vgcfgrestore (config : String)
  | synthRead (off len : Nat)
  | dmRemove (name : String)
  | vgchange
deriving DecidableEq, Repr

/-- The inputs `cmd_to_lvm` draws from its environment: the probed
superblock type, device size and paths, the `--vg-name` argument
(modelled for the `--vg-name` branch, src/lvm_operations.cpp:376-378, so
`pe_size = LVM_PE_SIZE` = 4 MiB), the filesystem label, and the probed
block stack. -/
structure ToLvmInput where
  superblockType : String
  size : Nat
  vgname : String
  fslabel : String
  basename : String
  devpath : String
  synthUuid : String
  stack : BStack
deriving Repr

/-- `cmd_to_lvm` (src/lvm_operations.cpp:317-676), as the sequence of
observable operations it performs; `none` where an assertion or bail
aborts the run, otherwise `some (exit code, events)`.  A device whose
superblock type is "LVM2_member" is not refused: the code runs
`pvremove -ff` and continues (src/lvm_operations.cpp:322-326). -/
def cmdToLvm (inp : ToLvmInput) : Option (Nat × List LvmEvent) :=
  let pre : List LvmEvent :=
    if inp.superblockType = "LVM2_member" then [.pvremove] else []
  let peSize : Nat := 4194304
  if inp.vgname = "" then none
  else if ¬ inWhitelist inp.vgname then none
  else if inp.size % 512 ≠ 0 then none
  else
    let lvname0 := if inp.fslabel ≠ "" then inp.fslabel else inp.basename
    let _lvname := if inWhitelist lvname0 then lvname0 else "lv1"
    if peSize % 512 ≠ 0 then none
    else
      let peCount := sub64 (inp.size / peSize) 1
      let peNewpos := peCount * peSize % U64
      if peSize < 4096 then none
      else
        match stackReserveEndArea inp.stack peNewpos with
        | none => none
        | some rtrace =>
          let rozerosName := "rozeros-" ++ inp.synthUuid
          let synthName := "synthetic-" ++ inp.synthUuid
          let synthFullName := "/dev/mapper/" ++ synthName
          some (0,
            pre ++ [.e2fsck] ++ (rtrace.map fun pi => .reserveCall pi.1 pi.2) ++
            [.devRead 0 peSize,
             .devWrite peNewpos peSize,
             .dmCreate rozerosName (rozerosTable inp.size peSize),
             .dmCreate synthName (synthTable inp.size peSize inp.devpath rozerosName),
             .pvcreate (lvmConfig synthFullName),
             .vgcfgrestore (lvmConfig synthFullName),
             .synthRead 0 peSize,
             .dmRemove synthName,
             .dmRemove rozerosName,
             .devWrite 0 peSize,
             .vgchange])

/-- A concrete 100 MiB device that is already an LVM physical volume. -/
def lvmInput0 : ToLvmInput :=
  { superblockType := "LVM2_member"
    size := 104857600
    vgname := "vg1"
    fslabel := "root"
    basename := "loop0"
    devpath := "/dev/loop0"
    synthUuid := "u"
    stack := ⟨[], ⟨94371840, 4096, true⟩⟩ }

/-- Counterexample for C1: on `lvmInput0`, whose superblock type is
"LVM2_member", `cmd_to_lvm` does not refuse: it succeeds with exit code
0, its trace contains the `pvremove -ff` call, and it writes to the
device (the metadata write at offset 0 and the PE copy at `pe_newpos`),
refuting "refuses to proceed and fails without modifying the device". -/
theorem cmdToLvm_already_pv_proceeds :
    lvmInput0.superblockType = "LVM2_member" ∧
    cmdToLvm lvmInput0 ≠ none ∧
    ((cmdToLvm lvmInput0).getD (1, [])).1 = 0 ∧
    ((cmdToLvm lvmInput0).getD (1, [])).2.contains .pvremove = true ∧
    ((cmdToLvm lvmInput0).getD (1, [])).2.contains (.devWrite 0 4194304) = true ∧
    ((cmdToLvm lvmInput0).getD (1, [])).2.contains (.devWrite 100663296 4194304) = true :=
  ⟨by decide, by decide, by decide, by decide, by decide, by decide⟩

/-- C1 (amended): when the target device is already an LVM physical
volume, `cmd_to_lvm` does not refuse; it first runs `pvremove -ff` on
the device and then proceeds with the conversion, including the final
write of the LVM metadata to the device at offset 0. -/
theorem cmdToLvm_already_pv_removes_then_proceeds (inp : ToLvmInput)
    (hsb : inp.superblockType = "LVM2_member")
    (hrun : cmdToLvm inp ≠ none) :
    ∃ tr, cmdToLvm inp = some (0, .pvremove :: tr) ∧
      LvmEvent.devWrite 0 4194304 ∈ tr := by
  unfold cmdToLvm at hrun ⊢
  simp only [hsb, reduceIte]
  by_cases h1 : inp.vgname = ""
  · simp [h1] at hrun
  by_cases h2 : inWhitelist inp.vgname
  case neg => simp [h1, h2] at hrun
  by_cases h3 : inp.size % 512 = 0
  case neg => simp [h1, h2, h3] at hrun
  simp only [h1, if_false, h2, not_true_eq_false, if_false, h3, ne_eq,
    not_true_eq_false, if_false, reduceIte] at hrun ⊢
  cases hres : stackReserveEndArea inp.stack (sub64 (inp.size / 4194304) 1 * 4194304 % U64) with
  | none => rw [hres] at hrun; simp at hrun
  | some rtrace =>
    refine ⟨_, rfl, ?_⟩
    simp

/-- Witness for the amended C1 theorem at the concrete input
`lvmInput0`. -/
theorem cmdToLvm_already_pv_removes_then_proceeds_witness :
    (lvmInput0.superblockType = "LVM2_member" ∧ cmdToLvm lvmInput0 ≠ none) ∧
      ∃ tr, cmdToLvm lvmInput0 = some (0, .pvremove :: tr) ∧
        LvmEvent.devWrite 0 4194304 ∈ tr :=
  ⟨⟨by decide, by decide⟩,
    cmdToLvm_already_pv_removes_then_proceeds lvmInput0 (by decide) (by decide)⟩

/-! ## LVM metadata rotation (src/lvm_operations.cpp:74-167)

The Augeas tree store is a stub in this repository
(src/lvm_operations.cpp:17-72 returns 0 / "" for every key), so the LV
subtree that `rotate_aug` edits is modelled from the spec: an LV node
holds a `segment_count` field and an ordered list of `segmentN` subtrees,
each with `start_extent`, `extent_count`, `type`, `stripe_count` and a
one-element `stripes` list of (physical volume, extent offset); Augeas
path operations on `$lv/segmentN/...` index that list, `defvar` pins a
node across moves, `insert`/`remove`/`rename` splice and renumber the
list.  `rotate_aug`'s sequence of operations is transcribed from the
source against this model. -/

/-- One `segmentN` subtree of the LV metadata: `start_extent`,
`extent_count`, `type/str`, `stripe_count`, and the single stripe's
physical volume and extent offset (`stripes/list/1/str`,
`stripes/list/2`).  Augeas stores integers as text; `get_int` yields
`int`, modelled as `Int`. -/
structure Seg where
  start_extent : Int
  extent_count : Int
  segType : String
  stripe_count : Int
  stripe_pv : String
  stripe_off : Int
deriving DecidableEq, Repr

/-- The LV subtree: the `segment_count` field and the segment list. -/
structure LVCfg where
  segment_count : Int
  segs : List Seg
deriving DecidableEq, Repr

/-- `aug.decr(".../start_extent")` on one segment. -/
def decStart (s : Seg) : Seg := { s with start_extent := s.start_extent - 1 }

/-- `aug.incr(".../start_extent")` on one segment. -/
def incStart (s : Seg) : Seg := { s with start_extent := s.start_extent + 1 }

/-- The `extent_total` accumulation of the per-segment loop
(src/lvm_operations.cpp:82-86). -/
def sumCounts (l : List Seg) : Int :=
  l.foldl (fun acc s => acc + s.extent_count) 0

/-- `rotate_aug` (src/lvm_operations.cpp:74-167).  The assertions abort
the program (`none`); then for `forward` the first segment loses its
first PE to a new single-extent segment appended at the end (dropped if
it becomes empty), and for `backward` the last segment loses its last PE
to a new single-extent segment inserted at the front (the emptied last
segment dropped).  `aug.incr("$lv/segment_count")` runs before either
branch, and the cleanup branch decrements it again. -/
def rotateAug (forward : Bool) (peSectors : Int) (size : Nat) (lv : LVCfg) : Option LVCfg :=
  if lv.segment_count ≠ (lv.segs.length : Int) then none
  else if ¬ (∀ s ∈ lv.segs, s.segType = "striped" ∧ s.stripe_count = 1) then none
  else if size % 512 ≠ 0 then none
  else if sumCounts lv.segs * peSectors ≠ ((size / 512 : Nat) : Int) then none
  else if ¬ (1 < sumCounts lv.segs) then none
  else if forward then
    match lv.segs with
    | [] => none
    | s1 :: rest =>
      if s1.extent_count - 1 = 0 then
        some ⟨lv.segment_count + 1 - 1,
          rest.map decStart ++
            [⟨sumCounts lv.segs - 1, 1, "striped", 1, s1.stripe_pv, s1.stripe_off⟩]⟩
      else
        some ⟨lv.segment_count + 1,
          { s1 with extent_count := s1.extent_count - 1, stripe_off := s1.stripe_off + 1 } ::
            rest.map decStart ++
              [⟨sumCounts lv.segs - 1, 1, "striped", 1, s1.stripe_pv, s1.stripe_off⟩]⟩
  else
    match (lv.segs.map incStart).reverse with
    | [] => none
    | l :: frontRev =>
      if l.extent_count - 1 = 0 then
        some ⟨lv.segment_count + 1 - 1,
          ⟨0, 1, "striped", 1, l.stripe_pv, l.stripe_off + (l.extent_count - 1)⟩ ::
            frontRev.reverse⟩
      else
        some ⟨lv.segment_count + 1,
          ⟨0, 1, "striped", 1, l.stripe_pv, l.stripe_off + (l.extent_count - 1)⟩ ::
            frontRev.reverse ++ [{ l with extent_count := l.extent_count - 1 }]⟩

/-- `contigFrom a segs`: the segments' `start_extent` fields are the
running extent totals beginning at `a` (a well-formed LV segment
table). -/
def contigFrom : Int → List Seg → Bool
  | _, [] => true
  | a, s :: r => s.start_extent == a && contigFrom (a + s.extent_count) r

/-- A valid linear single-stripe LV metadata tree for `rotate_aug`: a
consistent `segment_count`, every segment striped with `stripe_count` 1
and at least one extent, consecutive `start_extent`s from 0, more than
one extent in total, and total extents × PE-sectors = size/512. -/
def validLV (peSectors : Int) (size : Nat) (lv : LVCfg) : Prop :=
  lv.segment_count = (lv.segs.length : Int) ∧
  (∀ s ∈ lv.segs, s.segType = "striped" ∧ s.stripe_count = 1 ∧ 1 ≤ s.extent_count) ∧
  contigFrom 0 lv.segs = true ∧
  1 < sumCounts lv.segs ∧
  sumCounts lv.segs * peSectors = ((size / 512 : Nat) : Int) ∧
  size % 512 = 0

instance (peSectors : Int) (size : Nat) (lv : LVCfg) : Decidable (validLV peSectors size lv) := by
  unfold validLV
  infer_instance

/-- A valid single-segment LV covering two extents. -/
def lvTwoExtents : LVCfg := ⟨1, [⟨0, 2, "striped", 1, "pv0", 0⟩]⟩

/-- Counterexample for C9: on the valid linear single-stripe tree
`lvTwoExtents` (one segment, two extents, 4 MiB PEs, 8 MiB LV),
`rotate_aug(forward)` followed by `rotate_aug(backward)` does not
reproduce the input (the rotation splits the segment and the undo never
merges it), and neither does backward followed by forward. -/
theorem rotateAug_roundtrip_not_identity :
    validLV 8192 8388608 lvTwoExtents ∧
    (rotateAug true 8192 8388608 lvTwoExtents).bind (rotateAug false 8192 8388608) ≠
      some lvTwoExtents ∧
    (rotateAug false 8192 8388608 lvTwoExtents).bind (rotateAug true 8192 8388608) ≠
      some lvTwoExtents :=
  ⟨by decide, by decide, by decide⟩

/-- Shifting the accumulator out of the extent-count sum. -/
theorem sumCounts_shift (l : List Seg) :
    ∀ a : Int, l.foldl (fun acc s => acc + s.extent_count) a = a + sumCounts l := by
  induction l with
  | nil => intro a; simp [sumCounts]
  | cons s l ih =>
    intro a
    simp only [sumCounts, List.foldl_cons] at ih ⊢
    rw [ih (a + s.extent_count), ih (0 + s.extent_count)]
    ring

theorem sumCounts_cons (s : Seg) (l : List Seg) :
    sumCounts (s :: l) = s.extent_count + sumCounts l := by
  show (s :: l).foldl (fun acc s => acc + s.extent_count) 0 = s.extent_count + sumCounts l
  rw [List.foldl_cons, sumCounts_shift l (0 + s.extent_count)]
  ring

theorem sumCounts_append (a b : List Seg) :
    sumCounts (a ++ b) = sumCounts a + sumCounts b := by
  induction a with
  | nil => simp [sumCounts]
  | cons s l ih =>
    rw [List.cons_append, sumCounts_cons, ih, sumCounts_cons]
    ring

/-- `decStart` and `incStart` only touch `start_extent`. -/
theorem sumCounts_map_decStart (l : List Seg) : sumCounts (l.map decStart) = sumCounts l := by
  induction l with
  | nil => rfl
  | cons s l ih => rw [List.map_cons, sumCounts_cons, sumCounts_cons, ih]; rfl

theorem sumCounts_map_incStart (l : List Seg) : sumCounts (l.map incStart) = sumCounts l := by
  induction l with
  | nil => rfl
  | cons s l ih => rw [List.map_cons, sumCounts_cons, sumCounts_cons, ih]; rfl

theorem incStart_decStart (s : Seg) : incStart (decStart s) = s := by
  cases s
  simp only [incStart, decStart]
  congr 1
  omega

theorem decStart_incStart (s : Seg) : decStart (incStart s) = s := by
  cases s
  simp only [incStart, decStart]
  congr 1
  omega

theorem map_incStart_decStart (l : List Seg) : (l.map decStart).map incStart = l := by
  induction l with
  | nil => rfl
  | cons s l ih => simp [incStart_decStart, ih]

theorem map_decStart_incStart (l : List Seg) : (l.map incStart).map decStart = l := by
  induction l with
  | nil => rfl
  | cons s l ih => simp [decStart_incStart, ih]

/-- The first segment of a contiguous table starts at the base. -/
theorem contigFrom_head (a : Int) (s : Seg) (l : List Seg)
    (h : contigFrom a (s :: l) = true) : s.start_extent = a := by
  simp only [contigFrom, Bool.and_eq_true, beq_iff_eq] at h
  exact h.1

/-- The last segment of a contiguous table starts at the base plus the
extent counts of the preceding segments. -/
theorem contigFrom_last (y : Seg) (xs : List Seg) :
    ∀ a : Int, contigFrom a (xs ++ [y]) = true → y.start_extent = a + sumCounts xs := by
  induction xs with
  | nil =>
    intro a h
    simp only [List.nil_append, contigFrom, Bool.and_eq_true, beq_iff_eq] at h
    simp [sumCounts, h.1]
  | cons x xs ih =>
    intro a h
    simp only [List.cons_append, contigFrom, Bool.and_eq_true, beq_iff_eq] at h
    have := ih (a + x.extent_count) h.2
    rw [this, sumCounts_cons]
    ring

/-- C9 (amended): for every valid linear single-stripe LV metadata tree,
the rotate-then-undo pair reproduces the input byte-for-byte when the
segment at the moved end covers a single extent: forward-then-backward
is the identity when the first segment has `extent_count` 1, and
backward-then-forward is the identity when the last segment has
`extent_count` 1.  (With a multi-extent end segment the round trip
splits that segment without re-merging it — see the counterexample.) -/
theorem rotateAug_roundtrip_single_extent (peSectors : Int) (size : Nat) (lv : LVCfg)
    (hv : validLV peSectors size lv) :
    (lv.segs.head?.map Seg.extent_count = some 1 →
      (rotateAug true peSectors size lv).bind (rotateAug false peSectors size) = some lv) ∧
    (lv.segs.getLast?.map Seg.extent_count = some 1 →
      (rotateAug false peSectors size lv).bind (rotateAug true peSectors size) = some lv) := by
  obtain ⟨nn, segs⟩ := lv
  obtain ⟨hn, hall, hcontig, htot, hsz, hmod⟩ := hv
  replace hn : nn = (segs.length : Int) := hn
  replace hall : ∀ s ∈ segs, s.segType = "striped" ∧ s.stripe_count = 1 ∧ 1 ≤ s.extent_count :=
    hall
  replace hcontig : contigFrom 0 segs = true := hcontig
  replace htot : 1 < sumCounts segs := htot
  replace hsz : sumCounts segs * peSectors = ((size / 512 : Nat) : Int) := hsz
  have hall2 : ∀ s ∈ segs, s.segType = "striped" ∧ s.stripe_count = 1 :=
    fun s hs => ⟨(hall s hs).1, (hall s hs).2.1⟩
  constructor
  · -- forward then backward, first segment a single extent
    intro hhead
    cases segs with
    | nil =>
      have hh : (([] : List Seg).head?).map Seg.extent_count = some 1 := hhead
      exact absurd hh (by decide)
    | cons s1 rest =>
      have hs1c : s1.extent_count = 1 := by
        simpa using hhead
      have hs1 : s1 = ⟨0, 1, "striped", 1, s1.stripe_pv, s1.stripe_off⟩ := by
        obtain ⟨hty, hsc, _⟩ := hall s1 (by simp)
        have hst : s1.start_extent = 0 := contigFrom_head 0 s1 rest hcontig
        cases s1
        simp only at hty hsc hst hs1c
        simp [hty, hsc, hst, hs1c]
      have hT : sumCounts (s1 :: rest) = 1 + sumCounts rest := by
        rw [sumCounts_cons, hs1c]
      have hfwd : rotateAug true peSectors size ⟨nn, s1 :: rest⟩ =
          some ⟨nn, rest.map decStart ++
            [⟨sumCounts (s1 :: rest) - 1, 1, "striped", 1, s1.stripe_pv, s1.stripe_off⟩]⟩ := by
        simp only [rotateAug, hn, ne_eq, not_true_eq_false, if_false, reduceIte]
        rw [if_neg (not_not_intro hall2), if_neg (not_not_intro hmod),
          if_neg (not_not_intro hsz), if_neg (not_not_intro htot)]
        rw [if_pos (by omega)]
        rw [Int.add_sub_cancel]
      -- the backward pass on the rotated tree
      have hlen2 : ((rest.map decStart ++
          [(⟨sumCounts (s1 :: rest) - 1, 1, "striped", 1, s1.stripe_pv,
            s1.stripe_off⟩ : Seg)]).length : Int) = ((s1 :: rest).length : Int) := by
        simp
      have hall2r : ∀ s ∈ rest.map decStart ++
          [(⟨sumCounts (s1 :: rest) - 1, 1, "striped", 1, s1.stripe_pv,
            s1.stripe_off⟩ : Seg)], s.segType = "striped" ∧ s.stripe_count = 1 := by
        intro s hs
        rcases List.mem_append.mp hs with hs | hs
        · obtain ⟨t, ht, rfl⟩ := List.mem_map.mp hs
          have := hall2 t (by simp [ht])
          simpa [decStart] using this
        · simp only [List.mem_singleton] at hs
          subst hs
          exact ⟨rfl, rfl⟩
      have hsing : ∀ x : Seg, sumCounts [x] = x.extent_count := by
        intro x
        simp [sumCounts]
      have hsumr : sumCounts (rest.map decStart ++
          [(⟨sumCounts (s1 :: rest) - 1, 1, "striped", 1, s1.stripe_pv,
            s1.stripe_off⟩ : Seg)]) = sumCounts (s1 :: rest) := by
        rw [sumCounts_append, sumCounts_map_decStart, hsing, hT]
        show sumCounts rest + 1 = 1 + sumCounts rest
        ring
      have hbwd : rotateAug false peSectors size
          ⟨nn, rest.map decStart ++
            [⟨sumCounts (s1 :: rest) - 1, 1, "striped", 1, s1.stripe_pv, s1.stripe_off⟩]⟩ =
          some ⟨nn, s1 :: rest⟩ := by
        simp only [rotateAug]
        rw [if_neg (not_not_intro (by rw [hn, hlen2])),
          if_neg (not_not_intro hall2r), if_neg (not_not_intro hmod),
          if_neg (not_not_intro (by rw [hsumr]; exact hsz)),
          if_neg (not_not_intro (by rw [hsumr]; exact htot))]
        rw [if_neg Bool.false_ne_true]
        simp only [List.map_append, map_incStart_decStart, List.map_cons, List.map_nil,
          List.reverse_append, List.reverse_cons, List.reverse_nil, List.nil_append,
          List.singleton_append]
        simp only [incStart]
        rw [if_pos (by simp)]
        simp only [List.reverse_reverse]
        rw [Int.add_sub_cancel]
        congr 2
        rw [hs1]
        simp
      rw [hfwd]
      exact hbwd
  · -- backward then forward, last segment a single extent
    intro hlast
    rcases List.eq_nil_or_concat segs with rfl | ⟨front, sN, heq⟩
    · have hh : (([] : List Seg).getLast?).map Seg.extent_count = some 1 := hlast
      exact absurd hh (by decide)
    · rw [List.concat_eq_append] at heq
      subst heq
      have hNc : sN.extent_count = 1 := by
        have hg : ((front ++ [sN] : List Seg).getLast?).map Seg.extent_count = some 1 := hlast
        rw [List.getLast?_concat] at hg
        simpa using hg
      have hNs : sN.start_extent = sumCounts front := by
        have := contigFrom_last sN front 0 hcontig
        omega
      have hN : sN = ⟨sumCounts front, 1, "striped", 1, sN.stripe_pv, sN.stripe_off⟩ := by
        obtain ⟨hty, hsc, _⟩ := hall sN (by simp)
        cases sN
        simp only at hty hsc hNs hNc
        simp [hty, hsc, hNs, hNc]
      have hsing : ∀ x : Seg, sumCounts [x] = x.extent_count := by
        intro x
        simp [sumCounts]
      have hT : sumCounts (front ++ [sN]) = sumCounts front + 1 := by
        rw [sumCounts_append, hsing, hNc]
      have hbwd : rotateAug false peSectors size ⟨nn, front ++ [sN]⟩ =
          some ⟨nn, ⟨0, 1, "striped", 1, sN.stripe_pv, sN.stripe_off⟩ ::
            front.map incStart⟩ := by
        simp only [rotateAug]
        rw [if_neg (not_not_intro hn), if_neg (not_not_intro hall2),
          if_neg (not_not_intro hmod), if_neg (not_not_intro hsz),
          if_neg (not_not_intro htot), if_neg Bool.false_ne_true]
        simp only [List.map_append, List.map_cons, List.map_nil, List.reverse_append,
          List.reverse_cons, List.reverse_nil, List.nil_append, List.singleton_append]
        rw [if_pos (by simp [incStart, hNc])]
        simp only [incStart, List.reverse_reverse]
        rw [Int.add_sub_cancel]
        congr 2
        simp [hNc]
      have hlenf : ((⟨0, 1, "striped", 1, sN.stripe_pv, sN.stripe_off⟩ ::
          front.map incStart : List Seg).length : Int) = ((front ++ [sN]).length : Int) := by
        simp
      have hallf : ∀ s ∈ (⟨0, 1, "striped", 1, sN.stripe_pv, sN.stripe_off⟩ ::
          front.map incStart : List Seg), s.segType = "striped" ∧ s.stripe_count = 1 := by
        intro s hs
        rcases List.mem_cons.mp hs with rfl | hs
        · exact ⟨rfl, rfl⟩
        · obtain ⟨t, ht, rfl⟩ := List.mem_map.mp hs
          have := hall2 t (by simp [ht])
          simpa [incStart] using this
      have hsumf : sumCounts (⟨0, 1, "striped", 1, sN.stripe_pv, sN.stripe_off⟩ ::
          front.map incStart : List Seg) = sumCounts (front ++ [sN]) := by
        rw [sumCounts_cons, sumCounts_map_incStart, hT]
        ring
      have hfwd : rotateAug true peSectors size
          ⟨nn, ⟨0, 1, "striped", 1, sN.stripe_pv, sN.stripe_off⟩ :: front.map incStart⟩ =
          some ⟨nn, front ++ [sN]⟩ := by
        simp only [rotateAug]
        rw [if_neg (not_not_intro (by rw [hn, hlenf])),
          if_neg (not_not_intro hallf), if_neg (not_not_intro hmod),
          if_neg (not_not_intro (by rw [hsumf]; exact hsz)),
          if_neg (not_not_intro (by rw [hsumf]; exact htot))]
        simp only [if_true, reduceIte]
        rw [if_pos (by simp)]
        rw [map_decStart_incStart, Int.add_sub_cancel]
        congr 2
        rw [hsumf, hT, hN]
        simp
      rw [hbwd]
      exact hfwd

/-- A valid two-segment LV whose first and last segments each cover a
single extent. -/
def lvPairSingles : LVCfg :=
  ⟨2, [⟨0, 1, "striped", 1, "pv0", 7⟩, ⟨1, 1, "striped", 1, "pv1", 3⟩]⟩

/-- Witness for the amended C9 theorem at the concrete tree
`lvPairSingles` (4 MiB PEs, 8 MiB LV). -/
theorem rotateAug_roundtrip_single_extent_witness :
    validLV 8192 8388608 lvPairSingles ∧
      ((lvPairSingles.segs.head?.map Seg.extent_count = some 1 →
        (rotateAug true 8192 8388608 lvPairSingles).bind (rotateAug false 8192 8388608) =
          some lvPairSingles) ∧
      (lvPairSingles.segs.getLast?.map Seg.extent_count = some 1 →
        (rotateAug false 8192 8388608 lvPairSingles).bind (rotateAug true 8192 8388608) =
          some lvPairSingles)) :=
  ⟨by decide, rotateAug_roundtrip_single_extent 8192 8388608 lvPairSingles (by decide)⟩

end Blocks
